import Mathlib

/-!
Shallow embedding of the physics core of `src/components/Canvas.tsx`
(the `updatePhysics` function of the `quantum-theory` repository).

JavaScript numbers are modelled as exact rationals (`ℚ`).  The one
operation that leaves `ℚ` is `Math.sqrt`; it is abstracted as an explicit
function parameter `rt : ℚ → ℚ`, and theorems that depend on square roots
carry hypotheses pinning `rt` down at exactly the values where the code
consults it.  The vector-math helpers imported from `src/utils/math`
(`add`, `sub`, `mult`, `dot`, `mag`, `normalize`) are not part of the
sources; they are modelled from the spec (§4.1).
-/

namespace QuantumTheory

/-- 2D vector (`Vector2` from `src/types`): a pair of numbers. -/
@[ext]
structure Vector2 where
  x : ℚ
  y : ℚ
deriving DecidableEq, Repr, Inhabited

/-- Modelled from the spec: componentwise vector addition (`add` of the
absent `src/utils/math`). -/
def add (a b : Vector2) : Vector2 := ⟨a.x + b.x, a.y + b.y⟩

/-- Modelled from the spec: componentwise vector subtraction (`sub` of the
absent `src/utils/math`). -/
def sub (a b : Vector2) : Vector2 := ⟨a.x - b.x, a.y - b.y⟩

/-- Modelled from the spec: scaling a vector by a scalar (`mult`, used as
`scale(v, k)` in the spec, of the absent `src/utils/math`). -/
def mult (v : Vector2) (k : ℚ) : Vector2 := ⟨v.x * k, v.y * k⟩

/-- Modelled from the spec: dot product (`dot` of the absent
`src/utils/math`). -/
def dot (a b : Vector2) : ℚ := a.x * b.x + a.y * b.y

/-- Squared Euclidean norm, the argument handed to `Math.sqrt`. -/
def magSq (v : Vector2) : ℚ := v.x * v.x + v.y * v.y

/-- Modelled from the spec: Euclidean norm (`mag` of the absent
`src/utils/math`), with `Math.sqrt` abstracted as the parameter `rt`. -/
def mag (rt : ℚ → ℚ) (v : Vector2) : ℚ := rt (magSq v)

/-- Modelled from the spec: `normalize` of the absent `src/utils/math`.
Per §4.1 it returns the zero vector when the magnitude is below a fixed
epsilon (the spec suggests `1e-9`), avoiding division by zero. -/
def normalizeVec (rt : ℚ → ℚ) (v : Vector2) : Vector2 :=
  let m := mag rt v
  if m < 1 / 1000000000 then ⟨0, 0⟩ else ⟨v.x / m, v.y / m⟩

/-- A simulated ball (`Ball` from `src/types`). -/
structure Ball where
  id : String
  pos : Vector2
  vel : Vector2
  radius : ℚ
  color : String
deriving DecidableEq, Repr, Inhabited

/-- The fields of `SimulationConfig` consumed by `updatePhysics`. -/
structure SimulationConfig where
  gravity : ℚ
  friction : ℚ
  restitution : ℚ
  ballSize : ℚ
  rotationSpeed : ℚ
deriving DecidableEq, Repr, Inhabited

/-- The global multipliers (`GlobalSettings` from `src/types`). -/
structure GlobalSettings where
  gravityMultiplier : ℚ
  timeScale : ℚ
  rotationMultiplier : ℚ
  bouncinessMultiplier : ℚ
deriving DecidableEq, Repr, Inhabited

/-- Gravity sub-step of the integrator (Canvas.tsx line 75):
`ball.vel.y += config.gravity * gravityMultiplier * timeScale`. -/
def gravityStep (cfg : SimulationConfig) (gs : GlobalSettings) (v : Vector2) : Vector2 :=
  ⟨v.x, v.y + cfg.gravity * gs.gravityMultiplier * gs.timeScale⟩

/-- Linear-friction sub-step of the integrator (Canvas.tsx line 76):
`ball.vel = mult(ball.vel, 1 - config.friction * timeScale)`. -/
def frictionStep (cfg : SimulationConfig) (gs : GlobalSettings) (v : Vector2) : Vector2 :=
  mult v (1 - cfg.friction * gs.timeScale)

/-- Quadratic-drag sub-step of the integrator (Canvas.tsx lines 79-86):
drag acceleration `-0.003 * |v| * v`, applied only when `|v| > 0.001`. -/
def dragStep (rt : ℚ → ℚ) (gs : GlobalSettings) (v : Vector2) : Vector2 :=
  let velocityMag := mag rt v
  if 1 / 1000 < velocityMag then
    add v (mult (mult v (-(3 / 1000) * velocityMag)) gs.timeScale)
  else v

/-- The per-ball integrator, transcribed from Canvas.tsx lines 73-88:
gravity, then linear friction, then quadratic drag, then the position
update `ball.pos = add(ball.pos, mult(ball.vel, timeScale))`. -/
def integrateBall (rt : ℚ → ℚ) (cfg : SimulationConfig) (gs : GlobalSettings)
    (ball : Ball) : Ball :=
  let vel1 : Vector2 := ⟨ball.vel.x, ball.vel.y + cfg.gravity * gs.gravityMultiplier * gs.timeScale⟩
  let vel2 := mult vel1 (1 - cfg.friction * gs.timeScale)
  let velocityMag := mag rt vel2
  let vel3 :=
    if 1 / 1000 < velocityMag then
      add vel2 (mult (mult vel2 (-(3 / 1000) * velocityMag)) gs.timeScale)
    else vel2
  { ball with pos := add ball.pos (mult vel3 gs.timeScale), vel := vel3 }

/-- Iterated integrator: `n` collision-free simulation steps for one ball. -/
def integrateN (rt : ℚ → ℚ) (cfg : SimulationConfig) (gs : GlobalSettings) :
    Nat → Ball → Ball
  | 0, b => b
  | n + 1, b => integrateN rt cfg gs n (integrateBall rt cfg gs b)

/-- Inward edge normal (Canvas.tsx lines 96-103): normalize the rotated
edge vector and flip it when `dot(edgeNormal, mult(p1, -1)) < 0`. -/
def inwardNormal (rt : ℚ → ℚ) (p1 p2 : Vector2) : Vector2 :=
  let edge := sub p2 p1
  let n := normalizeVec rt ⟨-edge.y, edge.x⟩
  if dot n (mult p1 (-1)) < 0 then ⟨-n.x, -n.y⟩ else n

/-- Collision of one ball with one boundary edge (Canvas.tsx lines
93-121): position correction by the penetration depth, then — only when
moving into the wall — reflection, scaling by the effective restitution,
and the fixed outward nudge `n * 0.1`. -/
def resolveEdge (rt : ℚ → ℚ) (restitution : ℚ) (p1 p2 : Vector2) (ball : Ball) : Ball :=
  let edgeNormal := inwardNormal rt p1 p2
  let dist := dot (sub ball.pos p1) edgeNormal
  if dist < ball.radius then
    let penetration := ball.radius - dist
    let pos2 := add ball.pos (mult edgeNormal penetration)
    let velDotNormal := dot ball.vel edgeNormal
    if velDotNormal < 0 then
      let reflect := mult edgeNormal (2 * velDotNormal)
      let vel2 := sub ball.vel (mult reflect 1)
      let vel3 := mult vel2 restitution
      let vel4 := add vel3 (mult edgeNormal (1 / 10))
      { ball with pos := pos2, vel := vel4 }
    else
      { ball with pos := pos2 }
  else ball

/-- One ball against every boundary edge, in edge-index order
(Canvas.tsx line 93: edge `i` runs from vertex `i` to vertex `(i+1) % n`). -/
def boundaryPhase (rt : ℚ → ℚ) (restitution : ℚ) (vs : List Vector2) (ball : Ball) : Ball :=
  (List.range vs.length).foldl
    (fun b i => resolveEdge rt restitution (vs.getD i default) (vs.getD ((i + 1) % vs.length) default) b)
    ball

/-- The per-ball phase of `updatePhysics` (Canvas.tsx lines 73-123):
integrate, then resolve against the boundary with effective restitution
`config.restitution * bouncinessMultiplier`. -/
def ballPhase (rt : ℚ → ℚ) (cfg : SimulationConfig) (gs : GlobalSettings)
    (vs : List Vector2) (balls : List Ball) : List Ball :=
  balls.map fun ball =>
    boundaryPhase rt (cfg.restitution * gs.bouncinessMultiplier) vs (integrateBall rt cfg gs ball)

/-- Grid cell of a position (Canvas.tsx lines 134-135):
`floor((coordinate + worldBounds) / cellSize)` per axis. -/
def cellOf (cellSize worldBounds : ℚ) (p : Vector2) : ℤ × ℤ :=
  (⌊(p.x + worldBounds) / cellSize⌋, ⌊(p.y + worldBounds) / cellSize⌋)

/-- Insertion into the cell map (Canvas.tsx lines 136-140): append to the
bucket of the key if present, else create a new entry at the end,
mirroring JS `Map` insertion-order semantics. -/
def gridInsert (k : ℤ × ℤ) (i : ℕ) :
    List ((ℤ × ℤ) × List ℕ) → List ((ℤ × ℤ) × List ℕ)
  | [] => [(k, [i])]
  | e :: rest => if e.1 = k then (e.1, e.2 ++ [i]) :: rest else e :: gridInsert k i rest

/-- Exact-key lookup in the cell map (JS `Map.get`). -/
def gridLookup (k : ℤ × ℤ) : List ((ℤ × ℤ) × List ℕ) → Option (List ℕ)
  | [] => none
  | e :: rest => if e.1 = k then some e.2 else gridLookup k rest

/-- The spatial grid (Canvas.tsx lines 128-141), with balls referred to by
their index in the ball list. -/
def buildGrid (cellSize worldBounds : ℚ) (balls : List Ball) : List ((ℤ × ℤ) × List ℕ) :=
  (List.range balls.length).foldl
    (fun g i => gridInsert (cellOf cellSize worldBounds ((balls.getD i default).pos)) i g)
    []

/-- The 3×3 neighborhood offsets in the loop order of Canvas.tsx lines
149-150 (`dx` outer, `dy` inner, each from −1 to 1). -/
def neighborOffsets : List (ℤ × ℤ) :=
  [(-1, -1), (-1, 0), (-1, 1), (0, -1), (0, 0), (0, 1), (1, -1), (1, 0), (1, 1)]

/-- The ordered-pair candidate stream of the broad phase (Canvas.tsx lines
145-157): for each grid entry in insertion order, for each neighbor
offset, every ball of the entry's bucket against every ball of the
neighbor's bucket. -/
def candidates (g : List ((ℤ × ℤ) × List ℕ)) : List (ℕ × ℕ) :=
  g.flatMap fun e =>
    neighborOffsets.flatMap fun d =>
      match gridLookup (e.1.1 + d.1, e.1.2 + d.2) g with
      | none => []
      | some nb => e.2.flatMap fun i => nb.map fun j => (i, j)

/-- Canonical unordered pair key (Canvas.tsx line 161):
`ballA.id < ballB.id ? A|B : B|A`. -/
def pairKey (a b : String) : String × String :=
  if a < b then (a, b) else (b, a)

/-- Circle-circle narrow phase for one candidate pair, transcribed from
Canvas.tsx lines 166-203: overlap test, position correction with the
`{1,0}` fallback normal at distance zero, and — for approaching pairs —
equal-mass elastic exchange of the normal velocity components. -/
def resolvePairBalls (rt : ℚ → ℚ) (ballA ballB : Ball) : Ball × Ball :=
  let distVec := sub ballB.pos ballA.pos
  let distance := mag rt distVec
  let totalRadius := ballA.radius + ballB.radius
  if distance < totalRadius then
    let overlap := totalRadius - distance
    let correctionNormal := if distance = 0 then (⟨1, 0⟩ : Vector2) else normalizeVec rt distVec
    let aPos := add ballA.pos (mult correctionNormal (-overlap / 2))
    let bPos := add ballB.pos (mult correctionNormal (overlap / 2))
    let collisionNormal := normalizeVec rt distVec
    let relativeVelocity := sub ballB.vel ballA.vel
    let speedAlongNormal := dot relativeVelocity collisionNormal
    if speedAlongNormal < 0 then
      let v1nScalar := dot ballA.vel collisionNormal
      let v2nScalar := dot ballB.vel collisionNormal
      let v1nVec := mult collisionNormal v1nScalar
      let v2nVec := mult collisionNormal v2nScalar
      let v1tVec := sub ballA.vel v1nVec
      let v2tVec := sub ballB.vel v2nVec
      ({ ballA with pos := aPos, vel := add v1tVec v2nVec },
       { ballB with pos := bPos, vel := add v2tVec v1nVec })
    else
      ({ ballA with pos := aPos }, { ballB with pos := bPos })
  else (ballA, ballB)

/-- State threaded through the narrow-phase loop: the set of checked
canonical pair keys, a log of the pairs whose narrow-phase block actually
ran, and the (mutable in JS) ball list. -/
structure PairState where
  checked : List (String × String)
  log : List (String × String)
  balls : List Ball
deriving Repr

/-- Processing of one candidate ordered pair (Canvas.tsx lines 156-204):
skip identical ids, skip already-checked canonical keys, otherwise mark
the key checked and run the narrow phase, writing both balls back. -/
def processPair (rt : ℚ → ℚ) (st : PairState) (ij : ℕ × ℕ) : PairState :=
  let ballA := st.balls.getD ij.1 default
  let ballB := st.balls.getD ij.2 default
  if ballA.id = ballB.id then st
  else
    let k := pairKey ballA.id ballB.id
    if k ∈ st.checked then st
    else
      let r := resolvePairBalls rt ballA ballB
      { checked := k :: st.checked
        log := st.log ++ [k]
        balls := (st.balls.set ij.1 r.1).set ij.2 r.2 }

/-- The full ball-to-ball phase state (Canvas.tsx lines 128-208): build
the grid with `cellSize = ballSize * 2.5` and offset
`worldBounds = shapeRadius * 1.1`, then fold the candidate stream. -/
def pairPhaseState (rt : ℚ → ℚ) (cfg : SimulationConfig) (shapeRadius : ℚ)
    (balls : List Ball) : PairState :=
  let cellSize := cfg.ballSize * (5 / 2)
  let worldBounds := shapeRadius * (11 / 10)
  (candidates (buildGrid cellSize worldBounds balls)).foldl (processPair rt) ⟨[], [], balls⟩

/-- Ball-to-ball collisions (Canvas.tsx line 127: only when more than one
ball exists). -/
def pairPhase (rt : ℚ → ℚ) (cfg : SimulationConfig) (shapeRadius : ℚ)
    (balls : List Ball) : List Ball :=
  if 1 < balls.length then (pairPhaseState rt cfg shapeRadius balls).balls else balls

/-- The escape safety-net (Canvas.tsx lines 213-218): any ball farther
than `shapeRadius + 50` from the center is reset to the origin with zero
velocity. -/
def safetyNet (rt : ℚ → ℚ) (shapeRadius : ℚ) (balls : List Ball) : List Ball :=
  balls.map fun ball =>
    if shapeRadius + 50 < mag rt ball.pos then { ball with pos := ⟨0, 0⟩, vel := ⟨0, 0⟩ } else ball

/-- One whole simulation step (`updatePhysics`, Canvas.tsx lines 54-219),
parametrized by the already-generated boundary vertex loop: per-ball
integration and boundary resolution, then the grid-based pair phase, then
the safety-net. -/
def updatePhysics (rt : ℚ → ℚ) (cfg : SimulationConfig) (gs : GlobalSettings)
    (localVertices : List Vector2) (shapeRadius : ℚ) (balls : List Ball) : List Ball :=
  safetyNet rt shapeRadius
    (pairPhase rt cfg shapeRadius (ballPhase rt cfg gs localVertices balls))

/-! ## Helper lemmas and concrete fixtures -/

/-- Scaling by the scalar one is the identity. -/
theorem mult_one (v : Vector2) : mult v 1 = v := by
  ext <;> simp [mult]

/-- The component of `v` orthogonal to `n` (for unit `n`), used to state
what boundary restitution does to the tangential velocity. -/
def tangentialPart (n v : Vector2) : Vector2 := sub v (mult n (dot v n))

/-- Square-root stand-in that is zero everywhere (correct at `0`). -/
def rtZero : ℚ → ℚ := fun _ => 0

/-- Square-root stand-in that is correct at `1`. -/
def rtOne : ℚ → ℚ := fun q => if q = 1 then 1 else 0

/-- Square-root stand-in that is correct at `4`. -/
def rtFour : ℚ → ℚ := fun q => if q = 4 then 2 else 0

/-- A configuration with zero gravity and zero friction. -/
def cfgNoForces : SimulationConfig := ⟨0, 0, 1, 1, 0⟩

/-- A configuration with zero gravity, zero friction and restitution 1/2. -/
def cfgHalfRest : SimulationConfig := ⟨0, 0, 1 / 2, 1, 0⟩

/-- Global settings with every multiplier and the time scale equal to 1. -/
def gsUnit : GlobalSettings := ⟨1, 1, 1, 1⟩

/-- A ball slower than the drag threshold (in fact at rest). -/
def slowBall : Ball := ⟨"w", ⟨5, 7⟩, ⟨0, 0⟩, 1, "c"⟩

/-- A ball moving with unit velocity along the x axis. -/
def unitXBall : Ball := ⟨"b0", ⟨0, 0⟩, ⟨1, 0⟩, 1, "c"⟩

/-- First endpoint of a vertical boundary edge at `x = 1`. -/
def pEdge1 : Vector2 := ⟨1, -1⟩

/-- Second endpoint of a vertical boundary edge at `x = 1`. -/
def pEdge2 : Vector2 := ⟨1, 1⟩

/-- A ball penetrating the edge `pEdge1`-`pEdge2` while moving into it
with a nonzero tangential velocity component. -/
def edgeBall : Ball := ⟨"e", ⟨19 / 20, 0⟩, ⟨1, 1⟩, 1 / 10, "c"⟩

/-! ## C9: integrator order -/

/-- C9: each tick the integrator applies, in this fixed order, gravity
(`velocity.y += gravity * gravityMultiplier * timeScale`), then linear
friction (`velocity *= 1 - friction * timeScale`), then quadratic drag,
and only then the position update `position += velocity * timeScale`,
which therefore uses the velocity already including this tick's forces
(semi-implicit Euler). -/
theorem C9_integrator_fixed_order (rt : ℚ → ℚ) (cfg : SimulationConfig)
    (gs : GlobalSettings) (ball : Ball) :
    integrateBall rt cfg gs ball =
      { ball with
          vel := dragStep rt gs (frictionStep cfg gs (gravityStep cfg gs ball.vel)),
          pos := add ball.pos
            (mult (dragStep rt gs (frictionStep cfg gs (gravityStep cfg gs ball.vel)))
              gs.timeScale) } ∧
    (integrateBall rt cfg gs ball).pos =
      add ball.pos (mult (integrateBall rt cfg gs ball).vel gs.timeScale) :=
  ⟨rfl, rfl⟩

/-! ## C1: velocity across collision-free steps -/

/-- One collision-free step under zero gravity and zero friction, with
speed at most the drag threshold `0.001`, only translates the ball. -/
theorem integrateBall_const_vel (rt : ℚ → ℚ) (cfg : SimulationConfig)
    (gs : GlobalSettings) (ball : Ball)
    (hg : cfg.gravity = 0) (hf : cfg.friction = 0)
    (hm : rt (magSq ball.vel) ≤ 1 / 1000) :
    integrateBall rt cfg gs ball =
      { ball with pos := add ball.pos (mult ball.vel gs.timeScale) } := by
  have hvel2 :
      mult ⟨ball.vel.x, ball.vel.y + cfg.gravity * gs.gravityMultiplier * gs.timeScale⟩
        (1 - cfg.friction * gs.timeScale) = ball.vel := by
    ext <;> simp [mult, hg, hf]
  simp only [integrateBall, hvel2, mag]
  rw [if_neg (not_lt.mpr hm)]

/-- C1, amended: a body with zero gravity and zero friction configured,
whose speed is at most the drag threshold `0.001` (so the fixed quadratic
drag never engages), keeps its velocity unchanged across `n`
collision-free simulation steps. -/
theorem C1_constant_velocity_below_drag_threshold (rt : ℚ → ℚ)
    (cfg : SimulationConfig) (gs : GlobalSettings) (n : ℕ) (ball : Ball)
    (hg : cfg.gravity = 0) (hf : cfg.friction = 0)
    (hm : rt (magSq ball.vel) ≤ 1 / 1000) :
    (integrateN rt cfg gs n ball).vel = ball.vel := by
  induction n generalizing ball with
  | zero => rfl
  | succ n ih =>
    rw [integrateN, integrateBall_const_vel rt cfg gs ball hg hf hm]
    exact ih _ hm

/-- Witness for C1 at a concrete input: a resting ball under zero gravity
and friction keeps its velocity across five steps. -/
theorem C1_constant_velocity_witness :
    cfgNoForces.gravity = 0 ∧ cfgNoForces.friction = 0 ∧
    rtZero (magSq slowBall.vel) ≤ 1 / 1000 ∧
    (integrateN rtZero cfgNoForces gsUnit 5 slowBall).vel = slowBall.vel :=
  ⟨rfl, rfl, by norm_num [rtZero],
    C1_constant_velocity_below_drag_threshold rtZero cfgNoForces gsUnit 5 slowBall rfl rfl
      (by norm_num [rtZero])⟩

/-- Counterexample to C1 as stated: with zero gravity and zero friction
configured, a ball of unit speed still changes velocity in one step,
because the quadratic drag has a fixed coefficient `0.003` and is not
configurable to zero.  (`rtOne` is a genuine square root at `1`, the only
point where this run consults it.) -/
theorem C1_drag_changes_velocity_counterexample :
    rtOne (magSq unitXBall.vel) * rtOne (magSq unitXBall.vel) = magSq unitXBall.vel ∧
    0 ≤ rtOne (magSq unitXBall.vel) ∧
    cfgNoForces.gravity = 0 ∧ cfgNoForces.friction = 0 ∧
    (integrateN rtOne cfgNoForces gsUnit 1 unitXBall).vel ≠ unitXBall.vel := by
  refine ⟨by norm_num [rtOne, magSq, unitXBall], by norm_num [rtOne, magSq, unitXBall],
    rfl, rfl, ?_⟩
  norm_num [integrateN, integrateBall, mag, magSq, mult, add, rtOne, cfgNoForces, gsUnit,
    unitXBall, Vector2.ext_iff]

/-! ## C4: boundary edge resolution -/

/-- On penetration with the ball moving into the wall, the resolved
velocity is the reflection about the inward normal, scaled whole by the
effective restitution, plus the fixed nudge. -/
theorem resolveEdge_vel_on_approach (rt : ℚ → ℚ) (r : ℚ) (p1 p2 : Vector2) (ball : Ball)
    (hpen : dot (sub ball.pos p1) (inwardNormal rt p1 p2) < ball.radius)
    (happ : dot ball.vel (inwardNormal rt p1 p2) < 0) :
    (resolveEdge rt r p1 p2 ball).vel =
      add (mult (sub ball.vel (mult (inwardNormal rt p1 p2)
            (2 * dot ball.vel (inwardNormal rt p1 p2)))) r)
        (mult (inwardNormal rt p1 p2) (1 / 10)) := by
  simp only [resolveEdge]
  rw [if_pos hpen, if_pos happ, mult_one]

/-- C4: for each boundary edge, with inward normal `n` and signed distance
`d` of the center from the edge line: on penetration (`d < radius`) the
position is pushed out by exactly `radius - d` along `n`; the velocity is
modified only when `dot(velocity, n) < 0`, in which case it is reflected
about `n`, scaled by `restitution * bouncinessMultiplier`, and nudged by
`n * 0.1`; an edge with `d ≥ radius` leaves the ball unchanged. -/
theorem C4_boundary_edge_resolution (rt : ℚ → ℚ) (cfg : SimulationConfig)
    (gs : GlobalSettings) (p1 p2 : Vector2) (ball : Ball) :
    (dot (sub ball.pos p1) (inwardNormal rt p1 p2) < ball.radius →
      ((resolveEdge rt (cfg.restitution * gs.bouncinessMultiplier) p1 p2 ball).pos =
          add ball.pos (mult (inwardNormal rt p1 p2)
            (ball.radius - dot (sub ball.pos p1) (inwardNormal rt p1 p2))) ∧
        (dot ball.vel (inwardNormal rt p1 p2) < 0 →
          (resolveEdge rt (cfg.restitution * gs.bouncinessMultiplier) p1 p2 ball).vel =
            add (mult (sub ball.vel (mult (inwardNormal rt p1 p2)
                  (2 * dot ball.vel (inwardNormal rt p1 p2))))
                (cfg.restitution * gs.bouncinessMultiplier))
              (mult (inwardNormal rt p1 p2) (1 / 10))) ∧
        (0 ≤ dot ball.vel (inwardNormal rt p1 p2) →
          (resolveEdge rt (cfg.restitution * gs.bouncinessMultiplier) p1 p2 ball).vel =
            ball.vel))) ∧
    (ball.radius ≤ dot (sub ball.pos p1) (inwardNormal rt p1 p2) →
      resolveEdge rt (cfg.restitution * gs.bouncinessMultiplier) p1 p2 ball = ball) := by
  constructor
  · intro hpen
    refine ⟨?_, ?_, ?_⟩
    · simp only [resolveEdge]
      rw [if_pos hpen]
      split_ifs <;> rfl
    · intro happ
      exact resolveEdge_vel_on_approach rt (cfg.restitution * gs.bouncinessMultiplier)
        p1 p2 ball hpen happ
    · intro hnapp
      simp only [resolveEdge]
      rw [if_pos hpen, if_neg (not_lt.mpr hnapp)]
  · intro hout
    simp only [resolveEdge]
    rw [if_neg (not_lt.mpr hout)]

/-- Witness for C4 at a concrete input: a penetrating, approaching ball on
a vertical edge gets the stated position correction and reflected, scaled,
nudged velocity. -/
theorem C4_boundary_edge_witness :
    dot (sub edgeBall.pos pEdge1) (inwardNormal rtFour pEdge1 pEdge2) < edgeBall.radius ∧
    dot edgeBall.vel (inwardNormal rtFour pEdge1 pEdge2) < 0 ∧
    (resolveEdge rtFour (cfgHalfRest.restitution * gsUnit.bouncinessMultiplier)
        pEdge1 pEdge2 edgeBall).pos =
      add edgeBall.pos (mult (inwardNormal rtFour pEdge1 pEdge2)
        (edgeBall.radius - dot (sub edgeBall.pos pEdge1) (inwardNormal rtFour pEdge1 pEdge2))) ∧
    (resolveEdge rtFour (cfgHalfRest.restitution * gsUnit.bouncinessMultiplier)
        pEdge1 pEdge2 edgeBall).vel =
      add (mult (sub edgeBall.vel (mult (inwardNormal rtFour pEdge1 pEdge2)
            (2 * dot edgeBall.vel (inwardNormal rtFour pEdge1 pEdge2))))
          (cfgHalfRest.restitution * gsUnit.bouncinessMultiplier))
        (mult (inwardNormal rtFour pEdge1 pEdge2) (1 / 10)) := by
  have hpen : dot (sub edgeBall.pos pEdge1) (inwardNormal rtFour pEdge1 pEdge2) <
      edgeBall.radius := by
    norm_num [dot, sub, mult, inwardNormal, normalizeVec, mag, magSq, rtFour, pEdge1, pEdge2,
      edgeBall]
  have happ : dot edgeBall.vel (inwardNormal rtFour pEdge1 pEdge2) < 0 := by
    norm_num [dot, sub, mult, inwardNormal, normalizeVec, mag, magSq, rtFour, pEdge1, pEdge2,
      edgeBall]
  have h := C4_boundary_edge_resolution rtFour cfgHalfRest gsUnit pEdge1 pEdge2 edgeBall
  exact ⟨hpen, happ, (h.1 hpen).1, (h.1 hpen).2.1 happ⟩

/-! ## C2: what boundary restitution does to the velocity components -/

/-- Reflecting about a unit normal, scaling the whole result and nudging:
the normal velocity component. -/
theorem reflect_scale_normal_component (n v : Vector2) (r : ℚ) (hn : dot n n = 1) :
    dot (add (mult (sub v (mult n (2 * dot v n))) r) (mult n (1 / 10))) n =
      -(r * dot v n) + 1 / 10 := by
  simp only [dot, add, sub, mult] at hn ⊢
  linear_combination (1 / 10 - 2 * r * (v.x * n.x + v.y * n.y)) * hn

/-- Reflecting about a unit normal, scaling the whole result and nudging:
the tangential velocity component is scaled by `r`. -/
theorem reflect_scale_tangential_component (n v : Vector2) (r : ℚ) (hn : dot n n = 1) :
    tangentialPart n (add (mult (sub v (mult n (2 * dot v n))) r) (mult n (1 / 10))) =
      mult (tangentialPart n v) r := by
  have hn' : n.x * n.x + n.y * n.y = 1 := hn
  ext
  · simp only [tangentialPart, dot, add, sub, mult]
    linear_combination (n.x * (2 * r * (v.x * n.x + v.y * n.y) - 1 / 10)) * hn'
  · simp only [tangentialPart, dot, add, sub, mult]
    linear_combination (n.y * (2 * r * (v.x * n.x + v.y * n.y) - 1 / 10)) * hn'

/-- C2, amended: in a boundary collision with the body moving into the
wall (unit inward normal `n`), the code scales the whole reflected
velocity by `restitution * bouncinessMultiplier`: the resulting normal
component is `-(restitution * bouncinessMultiplier) * dot(v, n)` plus the
fixed nudge `0.1`, and the tangential component is scaled by
`restitution * bouncinessMultiplier` rather than retained unchanged. -/
theorem C2_restitution_scales_whole_reflected_velocity (rt : ℚ → ℚ)
    (cfg : SimulationConfig) (gs : GlobalSettings) (p1 p2 : Vector2) (ball : Ball)
    (hn : dot (inwardNormal rt p1 p2) (inwardNormal rt p1 p2) = 1)
    (hpen : dot (sub ball.pos p1) (inwardNormal rt p1 p2) < ball.radius)
    (happ : dot ball.vel (inwardNormal rt p1 p2) < 0) :
    dot (resolveEdge rt (cfg.restitution * gs.bouncinessMultiplier) p1 p2 ball).vel
        (inwardNormal rt p1 p2) =
      -(cfg.restitution * gs.bouncinessMultiplier *
          dot ball.vel (inwardNormal rt p1 p2)) + 1 / 10 ∧
    tangentialPart (inwardNormal rt p1 p2)
        (resolveEdge rt (cfg.restitution * gs.bouncinessMultiplier) p1 p2 ball).vel =
      mult (tangentialPart (inwardNormal rt p1 p2) ball.vel)
        (cfg.restitution * gs.bouncinessMultiplier) := by
  have hv := resolveEdge_vel_on_approach rt (cfg.restitution * gs.bouncinessMultiplier)
    p1 p2 ball hpen happ
  rw [hv]
  exact ⟨reflect_scale_normal_component _ _ _ hn,
    reflect_scale_tangential_component _ _ _ hn⟩

/-- Witness for C2 (amended) at a concrete input. -/
theorem C2_restitution_witness :
    dot (inwardNormal rtFour pEdge1 pEdge2) (inwardNormal rtFour pEdge1 pEdge2) = 1 ∧
    dot (sub edgeBall.pos pEdge1) (inwardNormal rtFour pEdge1 pEdge2) < edgeBall.radius ∧
    dot edgeBall.vel (inwardNormal rtFour pEdge1 pEdge2) < 0 ∧
    tangentialPart (inwardNormal rtFour pEdge1 pEdge2)
        (resolveEdge rtFour (cfgHalfRest.restitution * gsUnit.bouncinessMultiplier)
          pEdge1 pEdge2 edgeBall).vel =
      mult (tangentialPart (inwardNormal rtFour pEdge1 pEdge2) edgeBall.vel)
        (cfgHalfRest.restitution * gsUnit.bouncinessMultiplier) := by
  have hn : dot (inwardNormal rtFour pEdge1 pEdge2) (inwardNormal rtFour pEdge1 pEdge2) = 1 := by
    norm_num [dot, sub, mult, inwardNormal, normalizeVec, mag, magSq, rtFour, pEdge1, pEdge2]
  have hpen : dot (sub edgeBall.pos pEdge1) (inwardNormal rtFour pEdge1 pEdge2) <
      edgeBall.radius := by
    norm_num [dot, sub, mult, inwardNormal, normalizeVec, mag, magSq, rtFour, pEdge1, pEdge2,
      edgeBall]
  have happ : dot edgeBall.vel (inwardNormal rtFour pEdge1 pEdge2) < 0 := by
    norm_num [dot, sub, mult, inwardNormal, normalizeVec, mag, magSq, rtFour, pEdge1, pEdge2,
      edgeBall]
  exact ⟨hn, hpen, happ,
    (C2_restitution_scales_whole_reflected_velocity rtFour cfgHalfRest gsUnit pEdge1 pEdge2
      edgeBall hn hpen happ).2⟩

/-- Counterexample to C2 as stated: `rtFour` is a genuine square root at
`4` (the only point this run consults it), the ball penetrates the edge
moving into the wall, the tangential direction is `(0, 1)`, and the
tangential velocity component is halved (restitution 1/2), not retained:
`0.5 ≠ 1`. -/
theorem C2_tangential_not_retained_counterexample :
    rtFour 4 * rtFour 4 = 4 ∧ 0 ≤ rtFour 4 ∧
    dot (sub edgeBall.pos pEdge1) (inwardNormal rtFour pEdge1 pEdge2) < edgeBall.radius ∧
    dot edgeBall.vel (inwardNormal rtFour pEdge1 pEdge2) < 0 ∧
    tangentialPart (inwardNormal rtFour pEdge1 pEdge2)
        (resolveEdge rtFour (cfgHalfRest.restitution * gsUnit.bouncinessMultiplier)
          pEdge1 pEdge2 edgeBall).vel ≠
      tangentialPart (inwardNormal rtFour pEdge1 pEdge2) edgeBall.vel := by
  refine ⟨by norm_num [rtFour], by norm_num [rtFour], ?_, ?_, ?_⟩ <;>
    norm_num [tangentialPart, resolveEdge, dot, sub, mult, add, inwardNormal, normalizeVec,
      mag, magSq, rtFour, pEdge1, pEdge2, edgeBall, cfgHalfRest, gsUnit, Vector2.ext_iff]

/-! ## C3: exact center coincidence in the pair resolver -/

/-- A ball used for the coincident-centers fixture. -/
def coBallA : Ball := ⟨"p", ⟨3, 4⟩, ⟨2, 0⟩, 1, "c"⟩

/-- A second ball at exactly the same center. -/
def coBallB : Ball := ⟨"q", ⟨3, 4⟩, ⟨0, 1⟩, 2, "c"⟩

/-- C3: for a candidate pair with exactly coincident centers and positive
radii, the resolver takes the fixed fallback normal `{1,0}` for the
position correction, and the velocity resolution is skipped (the
`normalize` fallback makes the approach speed zero), so both output
positions and velocities are the well-defined finite values below. -/
theorem C3_coincident_centers_fallback (rt : ℚ → ℚ) (a b : Ball)
    (hs0 : rt 0 = 0) (hpos : b.pos = a.pos)
    (hra : 0 < a.radius) (hrb : 0 < b.radius) :
    resolvePairBalls rt a b =
      ({ a with pos := add a.pos (mult ⟨1, 0⟩ (-(a.radius + b.radius) / 2)) },
       { b with pos := add b.pos (mult ⟨1, 0⟩ ((a.radius + b.radius) / 2)) }) := by
  have hdvec : sub b.pos a.pos = (⟨0, 0⟩ : Vector2) := by
    rw [hpos]; ext <;> simp [sub]
  have hmagz : mag rt (⟨0, 0⟩ : Vector2) = 0 := by
    simpa [mag, magSq] using hs0
  have hnz : normalizeVec rt (⟨0, 0⟩ : Vector2) = ⟨0, 0⟩ := by
    simp only [normalizeVec, hmagz]
    norm_num
  have htot : (0 : ℚ) < a.radius + b.radius := by linarith
  simp only [resolvePairBalls, hdvec, hmagz, hnz]
  rw [if_pos htot]
  rw [if_neg (show ¬ dot (sub b.vel a.vel) (⟨0, 0⟩ : Vector2) < 0 by simp [dot])]
  rw [Prod.mk.injEq]
  constructor <;> (simp only [Ball.mk.injEq, if_true]; norm_num [add, mult, Vector2.ext_iff])

/-- Witness for C3 at a concrete input: two coincident balls of radii 1
and 2 are pushed apart along `{1,0}` by half the radius sum each, with
velocities untouched and every output component finite. -/
theorem C3_coincident_centers_witness :
    rtZero 0 = 0 ∧ coBallB.pos = coBallA.pos ∧
    0 < coBallA.radius ∧ 0 < coBallB.radius ∧
    resolvePairBalls rtZero coBallA coBallB =
      (⟨"p", ⟨3 / 2, 4⟩, ⟨2, 0⟩, 1, "c"⟩, ⟨"q", ⟨9 / 2, 4⟩, ⟨0, 1⟩, 2, "c"⟩) := by
  refine ⟨rfl, rfl, by norm_num [coBallA], by norm_num [coBallB], ?_⟩
  rw [C3_coincident_centers_fallback rtZero coBallA coBallB rfl rfl
    (by norm_num [coBallA]) (by norm_num [coBallB])]
  norm_num [coBallA, coBallB, add, mult, Prod.ext_iff, Vector2.ext_iff]

/-! ## C5: head-on equal-radius pair collision -/

/-- C5: two equal-radius balls approaching head-on along the x axis with
velocities `{v,0}` and `{-v,0}` exchange their velocities exactly in one
resolved pair collision, conserving total momentum and total kinetic
energy.  The resolver takes no restitution or bounciness input at all
(compare `resolvePairBalls` with `resolveEdge`), so the result is
independent of `bouncinessMultiplier`. -/
theorem C5_headon_exchange (rt : ℚ → ℚ) (a b : Ball) (d v : ℚ)
    (hsub : sub b.pos a.pos = ⟨d, 0⟩)
    (hrad : a.radius = b.radius)
    (hd0 : 1 / 1000000000 ≤ d)
    (hdr : d < a.radius + b.radius)
    (hrt : rt (d * d) = d)
    (hva : a.vel = ⟨v, 0⟩) (hvb : b.vel = ⟨-v, 0⟩) (hv : 0 < v) :
    (resolvePairBalls rt a b).1.vel = ⟨-v, 0⟩ ∧
    (resolvePairBalls rt a b).2.vel = ⟨v, 0⟩ ∧
    add (resolvePairBalls rt a b).1.vel (resolvePairBalls rt a b).2.vel =
      add a.vel b.vel ∧
    dot (resolvePairBalls rt a b).1.vel (resolvePairBalls rt a b).1.vel +
        dot (resolvePairBalls rt a b).2.vel (resolvePairBalls rt a b).2.vel =
      dot a.vel a.vel + dot b.vel b.vel := by
  have hd : (0 : ℚ) < d := lt_of_lt_of_le (by norm_num) hd0
  have hmagd : mag rt (⟨d, 0⟩ : Vector2) = d := by
    simpa [mag, magSq] using hrt
  have hnv : normalizeVec rt (⟨d, 0⟩ : Vector2) = ⟨1, 0⟩ := by
    simp only [normalizeVec, hmagd]
    rw [if_neg (not_lt.mpr hd0)]
    ext <;> simp [div_self hd.ne']
  have key : resolvePairBalls rt a b =
      ({ a with pos := add a.pos (mult ⟨1, 0⟩ (-(a.radius + b.radius - d) / 2)),
                vel := ⟨-v, 0⟩ },
       { b with pos := add b.pos (mult ⟨1, 0⟩ ((a.radius + b.radius - d) / 2)),
                vel := ⟨v, 0⟩ }) := by
    have hvelA :
        add (sub (⟨v, 0⟩ : Vector2) (mult ⟨1, 0⟩ (dot ⟨v, 0⟩ ⟨1, 0⟩)))
          (mult ⟨1, 0⟩ (dot ⟨-v, 0⟩ ⟨1, 0⟩)) = (⟨-v, 0⟩ : Vector2) := by
      ext <;> simp [add, sub, mult, dot]
    have hvelB :
        add (sub (⟨-v, 0⟩ : Vector2) (mult ⟨1, 0⟩ (dot ⟨-v, 0⟩ ⟨1, 0⟩)))
          (mult ⟨1, 0⟩ (dot ⟨v, 0⟩ ⟨1, 0⟩)) = (⟨v, 0⟩ : Vector2) := by
      ext <;> simp [add, sub, mult, dot]
    simp only [resolvePairBalls, hsub, hmagd, hnv, hva, hvb]
    rw [if_pos hdr]
    rw [if_neg hd.ne']
    rw [if_pos (show dot (sub ⟨-v, 0⟩ ⟨v, 0⟩) (⟨1, 0⟩ : Vector2) < 0 by
      simp [dot, sub]; linarith)]
    rw [hvelA, hvelB]
  rw [key, hva, hvb]
  refine ⟨rfl, rfl, ?_, ?_⟩
  · ext <;> simp [add]
  · simp [dot]

/-- Square-root stand-in that is correct at `1/4`. -/
def rtQuarter : ℚ → ℚ := fun q => if q = 1 / 4 then 1 / 2 else 0

/-- Left ball of the head-on fixture: radius `1/2`, velocity `{1,0}`. -/
def hdBallA : Ball := ⟨"a", ⟨0, 0⟩, ⟨1, 0⟩, 1 / 2, "c"⟩

/-- Right ball of the head-on fixture: radius `1/2`, velocity `{-1,0}`,
center distance `1/2` from the left ball. -/
def hdBallB : Ball := ⟨"b", ⟨1 / 2, 0⟩, ⟨-1, 0⟩, 1 / 2, "c"⟩

/-- Witness for C5 at a concrete input: the head-on pair at distance `1/2`
swaps `{1,0}` and `{-1,0}`. -/
theorem C5_headon_witness :
    sub hdBallB.pos hdBallA.pos = ⟨1 / 2, 0⟩ ∧
    hdBallA.radius = hdBallB.radius ∧
    rtQuarter (1 / 2 * (1 / 2)) = 1 / 2 ∧
    (resolvePairBalls rtQuarter hdBallA hdBallB).1.vel = ⟨-1, 0⟩ ∧
    (resolvePairBalls rtQuarter hdBallA hdBallB).2.vel = ⟨1, 0⟩ := by
  have h := C5_headon_exchange rtQuarter hdBallA hdBallB (1 / 2) 1
    (by norm_num [sub, hdBallA, hdBallB, Vector2.ext_iff]) rfl (by norm_num)
    (by norm_num [hdBallA, hdBallB]) (by norm_num [rtQuarter]) rfl rfl (by norm_num)
  exact ⟨by norm_num [sub, hdBallA, hdBallB, Vector2.ext_iff], rfl,
    by norm_num [rtQuarter], h.1, h.2.1⟩

/-! ## List and fold helpers -/

/-- A fold preserves any property preserved by each step. -/
theorem foldl_preserves {α β : Type*} {f : α → β → α} {P : α → Prop}
    (h : ∀ a b, P a → P (f a b)) (l : List β) (a : α) (ha : P a) :
    P (l.foldl f a) := by
  induction l generalizing a with
  | nil => exact ha
  | cons b l ih => exact ih (f a b) (h a b ha)

/-- `getD` commutes with `map` when the default is mapped too. -/
theorem getD_map {α β : Type*} (f : α → β) (d : α) :
    ∀ (l : List α) (i : ℕ), (l.map f).getD i (f d) = f (l.getD i d)
  | [], _ => rfl
  | _ :: _, 0 => rfl
  | _ :: l, i + 1 => getD_map f d l i

/-- `set` commutes with `map`. -/
theorem map_set {α β : Type*} (f : α → β) :
    ∀ (l : List α) (i : ℕ) (a : α), (l.set i a).map f = (l.map f).set i (f a)
  | [], _, _ => rfl
  | _ :: _, 0, _ => rfl
  | x :: l, i + 1, a => by
    show f x :: (l.set i a).map f = f x :: (l.map f).set i (f a)
    rw [map_set f l i a]

/-- Writing back the element already stored at an index is the identity. -/
theorem set_getD_self {α : Type*} (d : α) :
    ∀ (l : List α) (i : ℕ), l.set i (l.getD i d) = l
  | [], _ => rfl
  | _ :: _, 0 => rfl
  | x :: l, i + 1 => by
    show x :: l.set i (l.getD i d) = x :: l
    rw [set_getD_self d l i]

/-! ## The step mutates nothing but position and velocity -/

/-- The physics-invariant fields of a ball: id, radius, color. -/
def staticPart (b : Ball) : String × ℚ × String := (b.id, b.radius, b.color)

/-- The integrator touches only position and velocity. -/
theorem staticPart_integrateBall (rt : ℚ → ℚ) (cfg : SimulationConfig)
    (gs : GlobalSettings) (b : Ball) :
    staticPart (integrateBall rt cfg gs b) = staticPart b := rfl

/-- Boundary-edge resolution touches only position and velocity. -/
theorem staticPart_resolveEdge (rt : ℚ → ℚ) (r : ℚ) (p1 p2 : Vector2) (b : Ball) :
    staticPart (resolveEdge rt r p1 p2 b) = staticPart b := by
  simp only [resolveEdge]
  split_ifs <;> rfl

/-- The whole boundary phase touches only position and velocity. -/
theorem staticPart_boundaryPhase (rt : ℚ → ℚ) (r : ℚ) (vs : List Vector2) (b : Ball) :
    staticPart (boundaryPhase rt r vs b) = staticPart b := by
  refine foldl_preserves (P := fun x => staticPart x = staticPart b) ?_ _ _ rfl
  intro a i ha
  show staticPart (resolveEdge rt r (vs.getD i default)
    (vs.getD ((i + 1) % vs.length) default) a) = staticPart b
  rw [staticPart_resolveEdge]
  exact ha

/-- The pair resolver touches only positions and velocities (first ball). -/
theorem staticPart_resolvePair_fst (rt : ℚ → ℚ) (a b : Ball) :
    staticPart (resolvePairBalls rt a b).1 = staticPart a := by
  simp only [resolvePairBalls]
  split_ifs <;> rfl

/-- The pair resolver touches only positions and velocities (second ball). -/
theorem staticPart_resolvePair_snd (rt : ℚ → ℚ) (a b : Ball) :
    staticPart (resolvePairBalls rt a b).2 = staticPart b := by
  simp only [resolvePairBalls]
  split_ifs <;> rfl

/-- Invariant carried through the narrow-phase fold: ball ids, radii and
colors agree positionwise with the input list, a canonical pair key is
checked exactly when its narrow phase ran, and no key ran twice. -/
def PairInv (balls0 : List Ball) (st : PairState) : Prop :=
  st.balls.map staticPart = balls0.map staticPart ∧
  (∀ k, k ∈ st.checked ↔ k ∈ st.log) ∧
  st.log.Nodup

/-- One candidate step preserves the narrow-phase invariant. -/
theorem processPair_inv (rt : ℚ → ℚ) (balls0 : List Ball) (st : PairState)
    (ij : ℕ × ℕ) (h : PairInv balls0 st) : PairInv balls0 (processPair rt st ij) := by
  obtain ⟨hmap, hcl, hnd⟩ := h
  simp only [processPair]
  split_ifs with h1 h2
  · exact ⟨hmap, hcl, hnd⟩
  · exact ⟨hmap, hcl, hnd⟩
  · refine ⟨?_, ?_, ?_⟩
    · rw [map_set, map_set, staticPart_resolvePair_fst, staticPart_resolvePair_snd]
      rw [show staticPart (st.balls.getD ij.1 default) =
          (st.balls.map staticPart).getD ij.1 (staticPart default) from
        (getD_map _ _ _ _).symm]
      rw [set_getD_self]
      rw [show staticPart (st.balls.getD ij.2 default) =
          (st.balls.map staticPart).getD ij.2 (staticPart default) from
        (getD_map _ _ _ _).symm]
      rw [set_getD_self]
      exact hmap
    · intro k'
      simp only [List.mem_cons, List.mem_append, List.mem_singleton]
      have := hcl k'
      tauto
    · have hkey : pairKey (st.balls.getD ij.1 default).id (st.balls.getD ij.2 default).id ∉
          st.log := fun hk => h2 ((hcl _).mpr hk)
      refine hnd.append (List.nodup_singleton _) ?_
      intro x hx hx'
      rw [List.mem_singleton] at hx'
      exact hkey (hx' ▸ hx)

/-- The narrow-phase invariant holds for the full pair phase. -/
theorem pairPhaseState_inv (rt : ℚ → ℚ) (cfg : SimulationConfig) (shapeRadius : ℚ)
    (balls : List Ball) : PairInv balls (pairPhaseState rt cfg shapeRadius balls) := by
  simp only [pairPhaseState]
  exact foldl_preserves (fun st ij h => processPair_inv rt balls st ij h) _ _
    ⟨rfl, fun k => by simp, List.nodup_nil⟩

/-- In a duplicate-free list every element is counted at most once
(stated for any lawful boolean equality). -/
theorem count_le_one_of_nodup {α : Type*} [BEq α] [LawfulBEq α] {l : List α}
    (h : l.Nodup) (k : α) : l.count k ≤ 1 := by
  induction l with
  | nil => simp
  | cons b l ih =>
    rw [List.count_cons]
    rcases List.nodup_cons.mp h with ⟨hb, hl⟩
    by_cases hk : k = b
    · subst hk
      simp [List.count_eq_zero.mpr hb]
    · have hkb : (b == k) = false := beq_eq_false_iff_ne.mpr (Ne.symm hk)
      simpa [hkb] using ih hl

/-! ## C7: no double resolution -/

/-- C7: within one tick, the narrow-phase collision logic runs at most
once per canonical unordered pair key — the log of executed narrow-phase
blocks has no duplicate keys, so every key's execution count is at most
one, even when two bodies see each other from both cells' 3×3
neighborhoods. -/
theorem C7_narrow_phase_at_most_once (rt : ℚ → ℚ) (cfg : SimulationConfig)
    (shapeRadius : ℚ) (balls : List Ball) (k : String × String) :
    (pairPhaseState rt cfg shapeRadius balls).log.Nodup ∧
    (pairPhaseState rt cfg shapeRadius balls).log.count k ≤ 1 := by
  have h := (pairPhaseState_inv rt cfg shapeRadius balls).2.2
  exact ⟨h, count_le_one_of_nodup h k⟩

/-! ## C10: the step's frame -/

/-- The safety-net touches only positions and velocities. -/
theorem staticPart_safetyNet (rt : ℚ → ℚ) (shapeRadius : ℚ) (balls : List Ball) :
    (safetyNet rt shapeRadius balls).map staticPart = balls.map staticPart := by
  unfold safetyNet
  rw [List.map_map]
  congr 1
  funext b
  simp only [Function.comp_apply]
  split_ifs <;> rfl

/-- The pair phase touches only positions and velocities. -/
theorem staticPart_pairPhase (rt : ℚ → ℚ) (cfg : SimulationConfig) (shapeRadius : ℚ)
    (balls : List Ball) :
    (pairPhase rt cfg shapeRadius balls).map staticPart = balls.map staticPart := by
  unfold pairPhase
  split_ifs with h
  · exact (pairPhaseState_inv rt cfg shapeRadius balls).1
  · rfl

/-- The integrate-and-boundary phase touches only positions and
velocities. -/
theorem staticPart_ballPhase (rt : ℚ → ℚ) (cfg : SimulationConfig)
    (gs : GlobalSettings) (vs : List Vector2) (balls : List Ball) :
    (ballPhase rt cfg gs vs balls).map staticPart = balls.map staticPart := by
  unfold ballPhase
  rw [List.map_map]
  congr 1
  funext b
  simp only [Function.comp_apply]
  rw [staticPart_boundaryPhase, staticPart_integrateBall]

/-- C10: a whole simulation step mutates only positions and velocities:
the list of (id, radius, color) triples is exactly the input's, bodywise,
and the body count is unchanged.  The configuration and global settings
are only ever read (the step is a pure function of them). -/
theorem C10_step_mutates_only_pos_vel (rt : ℚ → ℚ) (cfg : SimulationConfig)
    (gs : GlobalSettings) (vs : List Vector2) (shapeRadius : ℚ) (balls : List Ball) :
    (updatePhysics rt cfg gs vs shapeRadius balls).map staticPart =
      balls.map staticPart ∧
    (updatePhysics rt cfg gs vs shapeRadius balls).length = balls.length := by
  have h : (updatePhysics rt cfg gs vs shapeRadius balls).map staticPart =
      balls.map staticPart := by
    unfold updatePhysics
    rw [staticPart_safetyNet, staticPart_pairPhase, staticPart_ballPhase]
  refine ⟨h, ?_⟩
  have := congrArg List.length h
  simpa using this

/-! ## C8: the escape safety-net -/

/-- C8: a completed step ends with the safety-net pass: a body whose
end-of-step distance from the center exceeds `shapeRadius + 50` is reset
to position `{0,0}` and velocity `{0,0}` and every other body is left
unchanged by the pass, so afterwards every body's distance from the
center is at most `shapeRadius + 50`. -/
theorem C8_safety_net_bound (rt : ℚ → ℚ) (cfg : SimulationConfig)
    (gs : GlobalSettings) (vs : List Vector2) (shapeRadius : ℚ) (balls : List Ball)
    (hs0 : rt 0 = 0) (hR : 0 ≤ shapeRadius) :
    updatePhysics rt cfg gs vs shapeRadius balls =
      (pairPhase rt cfg shapeRadius (ballPhase rt cfg gs vs balls)).map
        (fun b => if shapeRadius + 50 < mag rt b.pos then
          { b with pos := ⟨0, 0⟩, vel := ⟨0, 0⟩ } else b) ∧
    ∀ b ∈ updatePhysics rt cfg gs vs shapeRadius balls,
      mag rt b.pos ≤ shapeRadius + 50 := by
  refine ⟨rfl, ?_⟩
  intro b hb
  unfold updatePhysics safetyNet at hb
  rcases List.mem_map.mp hb with ⟨c, _, rfl⟩
  split_ifs with h
  · have hz : mag rt (⟨0, 0⟩ : Vector2) = 0 := by simpa [mag, magSq] using hs0
    show mag rt (⟨0, 0⟩ : Vector2) ≤ shapeRadius + 50
    rw [hz]
    linarith
  · exact le_of_not_lt h

/-- Square-root stand-in correct at `0` and at `1000000`. -/
def rtFar : ℚ → ℚ := fun q => if q = 1000000 then 1000 else 0

/-- A ball far outside the safety bound. -/
def farBall : Ball := ⟨"f", ⟨1000, 0⟩, ⟨0, 0⟩, 1, "c"⟩

/-- Witness for C8 at a concrete input: after one step with
`shapeRadius = 0`, every ball of the one-ball list at distance 1000 is
within the bound (it was reset). -/
theorem C8_safety_net_witness :
    rtFar 0 = 0 ∧ (0 : ℚ) ≤ 0 ∧
    ∀ b ∈ updatePhysics rtFar cfgNoForces gsUnit [] 0 [farBall],
      mag rtFar b.pos ≤ 0 + 50 := by
  refine ⟨by norm_num [rtFar], le_refl 0, ?_⟩
  exact (C8_safety_net_bound rtFar cfgNoForces gsUnit [] 0 [farBall]
    (by norm_num [rtFar]) (le_refl 0)).2

/-! ## C6: broad-phase completeness — geometry lemmas -/

/-- Two rationals less than one apart have floors at most one apart. -/
theorem abs_floor_sub_le_one (x y : ℚ) (h : |x - y| < 1) : |⌊x⌋ - ⌊y⌋| ≤ 1 := by
  rw [abs_lt] at h
  have hx1 : ⌊x⌋ < ⌊y⌋ + 2 := by
    rw [Int.floor_lt]
    push_cast
    have := Int.lt_floor_add_one y
    linarith
  have hy1 : ⌊y⌋ < ⌊x⌋ + 2 := by
    rw [Int.floor_lt]
    push_cast
    have := Int.lt_floor_add_one x
    linarith
  rw [abs_le]
  omega

/-- Coordinates closer than the cell size land in cells at most one
apart. -/
theorem cell_index_close (c u v : ℚ) (hc : 0 < c) (h : |u - v| < c) :
    |⌊u / c⌋ - ⌊v / c⌋| ≤ 1 := by
  apply abs_floor_sub_le_one
  rw [div_sub_div_same, abs_div, abs_of_pos hc]
  exact (div_lt_one hc).mpr h

/-- A bound on the squared norm bounds each coordinate. -/
theorem abs_coord_lt_of_magSq_lt (dx dy R : ℚ) (hR : 0 ≤ R)
    (h : dx * dx + dy * dy < R * R) : |dx| < R ∧ |dy| < R := by
  constructor
  · by_contra hcon
    push_neg at hcon
    have h1 := mul_self_le_mul_self hR hcon
    rw [abs_mul_abs_self] at h1
    nlinarith [mul_self_nonneg dy]
  · by_contra hcon
    push_neg at hcon
    have h1 := mul_self_le_mul_self hR hcon
    rw [abs_mul_abs_self] at h1
    nlinarith [mul_self_nonneg dx]

/-- Every offset with both components in `[-1, 1]` is one of the nine
neighbor offsets. -/
theorem offset_mem_neighborOffsets (dx dy : ℤ) (hdx : |dx| ≤ 1) (hdy : |dy| ≤ 1) :
    (dx, dy) ∈ neighborOffsets := by
  rw [abs_le] at hdx hdy
  have hx : dx = -1 ∨ dx = 0 ∨ dx = 1 := by omega
  have hy : dy = -1 ∨ dy = 0 ∨ dy = 1 := by omega
  rcases hx with rfl | rfl | rfl <;> rcases hy with rfl | rfl | rfl <;>
    simp [neighborOffsets]

/-! ## C6: grid-construction lemmas -/

/-- Looking up after an insertion: the inserted key's bucket gains the new
index at its end, all other keys are untouched. -/
theorem gridLookup_insert (k k' : ℤ × ℤ) (i : ℕ) (g : List ((ℤ × ℤ) × List ℕ)) :
    gridLookup k (gridInsert k' i g) =
      if k' = k then
        (match gridLookup k' g with
          | none => some [i]
          | some b => some (b ++ [i]))
      else gridLookup k g := by
  induction g with
  | nil =>
    by_cases hk : k' = k <;> simp [gridInsert, gridLookup, hk]
  | cons e g ih =>
    rcases e with ⟨ek, eb⟩
    simp only [gridInsert]
    by_cases he : ek = k'
    · subst he
      rw [if_pos rfl]
      by_cases hk : ek = k <;> simp [gridLookup, hk]
    · rw [if_neg he]
      by_cases hek : ek = k
      · subst hek
        have hk : ¬ k' = ek := fun h => he h.symm
        simp [gridLookup, hk]
      · simp only [gridLookup, if_neg hek]
        rw [ih]
        by_cases hk : k' = k <;> simp [gridLookup, hk, hek, he]

/-- A successful lookup exhibits an actual entry of the grid list. -/
theorem mem_of_gridLookup_eq_some (k : ℤ × ℤ) (b : List ℕ) :
    ∀ g : List ((ℤ × ℤ) × List ℕ), gridLookup k g = some b → (k, b) ∈ g := by
  intro g
  induction g with
  | nil => intro h; simp [gridLookup] at h
  | cons e g ih =>
    intro h
    simp only [gridLookup] at h
    by_cases he : e.1 = k
    · rw [if_pos he] at h
      have hb : e.2 = b := Option.some.inj h
      have : e = (k, b) := by
        rcases e with ⟨ek, eb⟩
        simp only at he hb
        rw [he, hb]
      rw [← this]
      exact List.mem_cons_self e g
    · rw [if_neg he] at h
      exact List.mem_cons_of_mem _ (ih h)

/-- Every ball index lands in the bucket of its own cell when the grid is
built. -/
theorem buildGrid_mem (cs wb : ℚ) (balls : List Ball) :
    ∀ j, j < balls.length →
      ∃ bk, gridLookup (cellOf cs wb ((balls.getD j default).pos))
          (buildGrid cs wb balls) = some bk ∧ j ∈ bk := by
  suffices h : ∀ m, ∀ j, j < m →
      ∃ bk, gridLookup (cellOf cs wb ((balls.getD j default).pos))
          ((List.range m).foldl
            (fun g i => gridInsert (cellOf cs wb ((balls.getD i default).pos)) i g) []) =
        some bk ∧ j ∈ bk by
    exact fun j hj => h balls.length j hj
  intro m
  induction m with
  | zero => intro j hj; omega
  | succ m ih =>
    intro j hj
    rw [List.range_succ, List.foldl_append, List.foldl_cons, List.foldl_nil]
    rcases Nat.lt_succ_iff_lt_or_eq.mp hj with hlt | rfl
    · rcases ih j hlt with ⟨bk, hbk, hjbk⟩
      rw [gridLookup_insert]
      by_cases hk : cellOf cs wb ((balls.getD m default).pos) =
          cellOf cs wb ((balls.getD j default).pos)
      · rw [if_pos hk, hk, hbk]
        exact ⟨bk ++ [m], rfl, List.mem_append_left _ hjbk⟩
      · rw [if_neg hk]
        exact ⟨bk, hbk, hjbk⟩
    · rw [gridLookup_insert, if_pos rfl]
      cases hG : gridLookup (cellOf cs wb ((balls.getD j default).pos))
          ((List.range j).foldl
            (fun g i => gridInsert (cellOf cs wb ((balls.getD i default).pos)) i g) []) with
      | none => exact ⟨[j], rfl, by simp⟩
      | some b => exact ⟨b ++ [j], rfl, by simp⟩

/-- Bucket membership across a 3×3 neighborhood lookup puts the ordered
pair into the broad-phase candidate stream. -/
theorem mem_candidates (g : List ((ℤ × ℤ) × List ℕ)) (e : (ℤ × ℤ) × List ℕ)
    (d : ℤ × ℤ) (nb : List ℕ) (i j : ℕ)
    (he : e ∈ g) (hd : d ∈ neighborOffsets)
    (hlook : gridLookup (e.1.1 + d.1, e.1.2 + d.2) g = some nb)
    (hi : i ∈ e.2) (hj : j ∈ nb) : (i, j) ∈ candidates g := by
  unfold candidates
  refine List.mem_flatMap.mpr ⟨e, he, ?_⟩
  refine List.mem_flatMap.mpr ⟨d, hd, ?_⟩
  rw [hlook]
  exact List.mem_flatMap.mpr ⟨i, hi, List.mem_map.mpr ⟨j, hj, rfl⟩⟩

/-! ## C6: narrow-phase coverage of the candidate stream -/

/-- Ball ids are stable through the narrow-phase fold. -/
theorem id_stable {balls0 : List Ball} {st : PairState}
    (h : st.balls.map staticPart = balls0.map staticPart) (i : ℕ) :
    (st.balls.getD i default).id = (balls0.getD i default).id := by
  have h2 := congrArg (fun l => l.getD i (staticPart default)) h
  simp only at h2
  rw [getD_map, getD_map] at h2
  exact congrArg (fun p => p.1) h2

/-- The narrow-phase log only grows along the fold. -/
theorem foldl_log_mono (rt : ℚ → ℚ) (l : List (ℕ × ℕ)) (st : PairState)
    (k : String × String) (hk : k ∈ st.log) :
    k ∈ (l.foldl (processPair rt) st).log := by
  induction l generalizing st with
  | nil => exact hk
  | cons p l ih =>
    apply ih
    simp only [processPair]
    split_ifs <;> simp [hk]

/-- Any candidate pair with distinct ids has its canonical key in the
final narrow-phase log: its narrow-phase block ran (possibly when the
pair appeared earlier in the stream). -/
theorem foldl_log_covers (rt : ℚ → ℚ) (balls0 : List Ball) (l : List (ℕ × ℕ))
    (st : PairState) (i j : ℕ) (hij : (i, j) ∈ l) (hinv : PairInv balls0 st)
    (hne : (balls0.getD i default).id ≠ (balls0.getD j default).id) :
    pairKey (balls0.getD i default).id (balls0.getD j default).id ∈
      (l.foldl (processPair rt) st).log := by
  induction l generalizing st with
  | nil => cases hij
  | cons p l ih =>
    rw [List.foldl_cons]
    rcases List.mem_cons.mp hij with heq | hmem
    · subst heq
      apply foldl_log_mono
      have hidA := id_stable hinv.1 i
      have hidB := id_stable hinv.1 j
      simp only [processPair]
      split_ifs with h1 h2
      · exact absurd (by rw [← hidA, ← hidB]; exact h1) hne
      · exact (hinv.2.1 _).mp (by rwa [hidA, hidB] at h2)
      · rw [← hidA, ← hidB]
        exact List.mem_append_right _ (List.mem_singleton_self _)
    · exact ih (processPair rt st p) hmem (processPair_inv rt balls0 st p hinv)

/-- C6: broad-phase completeness.  For two distinct bodies of radius
`ballSize` whose circles overlap, with `cellSize = ballSize * 2.5` and the
grid offset `worldBounds = shapeRadius * 1.1`, the bodies' cell
coordinates differ by at most 1 per axis, hence one of the nine neighbor
offsets of the first body's cell is exactly the second body's cell, and
the pair's canonical key reaches the narrow-phase test (it is in the
executed-pairs log of the tick). -/
theorem C6_broad_phase_completeness (rt : ℚ → ℚ) (cfg : SimulationConfig)
    (shapeRadius : ℚ) (balls : List Ball) (i j : ℕ)
    (hi : i < balls.length) (hj : j < balls.length)
    (hne : (balls.getD i default).id ≠ (balls.getD j default).id)
    (hsize : 0 < cfg.ballSize)
    (hri : (balls.getD i default).radius = cfg.ballSize)
    (hrj : (balls.getD j default).radius = cfg.ballSize)
    (hoverlap : magSq (sub (balls.getD j default).pos (balls.getD i default).pos) <
      ((balls.getD i default).radius + (balls.getD j default).radius) *
        ((balls.getD i default).radius + (balls.getD j default).radius)) :
    (|(cellOf (cfg.ballSize * (5 / 2)) (shapeRadius * (11 / 10))
          (balls.getD j default).pos).1 -
        (cellOf (cfg.ballSize * (5 / 2)) (shapeRadius * (11 / 10))
          (balls.getD i default).pos).1| ≤ 1 ∧
      |(cellOf (cfg.ballSize * (5 / 2)) (shapeRadius * (11 / 10))
          (balls.getD j default).pos).2 -
        (cellOf (cfg.ballSize * (5 / 2)) (shapeRadius * (11 / 10))
          (balls.getD i default).pos).2| ≤ 1) ∧
    (∃ d ∈ neighborOffsets,
      ((cellOf (cfg.ballSize * (5 / 2)) (shapeRadius * (11 / 10))
          (balls.getD i default).pos).1 + d.1,
        (cellOf (cfg.ballSize * (5 / 2)) (shapeRadius * (11 / 10))
          (balls.getD i default).pos).2 + d.2) =
        cellOf (cfg.ballSize * (5 / 2)) (shapeRadius * (11 / 10))
          (balls.getD j default).pos) ∧
    pairKey (balls.getD i default).id (balls.getD j default).id ∈
      (pairPhaseState rt cfg shapeRadius balls).log := by
  have hcs : (0 : ℚ) < cfg.ballSize * (5 / 2) := by linarith
  have hm : ((balls.getD j default).pos.x - (balls.getD i default).pos.x) *
        ((balls.getD j default).pos.x - (balls.getD i default).pos.x) +
      ((balls.getD j default).pos.y - (balls.getD i default).pos.y) *
        ((balls.getD j default).pos.y - (balls.getD i default).pos.y) <
      (cfg.ballSize + cfg.ballSize) * (cfg.ballSize + cfg.ballSize) := by
    have h := hoverlap
    simp only [magSq, sub] at h
    rw [hri, hrj] at h
    exact h
  have hcoord := abs_coord_lt_of_magSq_lt _ _ _ (by linarith) hm
  have hdx : |(balls.getD j default).pos.x - (balls.getD i default).pos.x| <
      cfg.ballSize * (5 / 2) := by
    have := hcoord.1
    linarith
  have hdy : |(balls.getD j default).pos.y - (balls.getD i default).pos.y| <
      cfg.ballSize * (5 / 2) := by
    have := hcoord.2
    linarith
  have hcellx : |(cellOf (cfg.ballSize * (5 / 2)) (shapeRadius * (11 / 10))
        (balls.getD j default).pos).1 -
      (cellOf (cfg.ballSize * (5 / 2)) (shapeRadius * (11 / 10))
        (balls.getD i default).pos).1| ≤ 1 := by
    simp only [cellOf]
    apply cell_index_close _ _ _ hcs
    rw [show (balls.getD j default).pos.x + shapeRadius * (11 / 10) -
        ((balls.getD i default).pos.x + shapeRadius * (11 / 10)) =
        (balls.getD j default).pos.x - (balls.getD i default).pos.x by ring]
    exact hdx
  have hcelly : |(cellOf (cfg.ballSize * (5 / 2)) (shapeRadius * (11 / 10))
        (balls.getD j default).pos).2 -
      (cellOf (cfg.ballSize * (5 / 2)) (shapeRadius * (11 / 10))
        (balls.getD i default).pos).2| ≤ 1 := by
    simp only [cellOf]
    apply cell_index_close _ _ _ hcs
    rw [show (balls.getD j default).pos.y + shapeRadius * (11 / 10) -
        ((balls.getD i default).pos.y + shapeRadius * (11 / 10)) =
        (balls.getD j default).pos.y - (balls.getD i default).pos.y by ring]
    exact hdy
  have hdmem := offset_mem_neighborOffsets _ _ hcellx hcelly
  refine ⟨⟨hcellx, hcelly⟩, ?_, ?_⟩
  · refine ⟨_, hdmem, ?_⟩
    rw [Prod.mk.injEq]
    omega
  · rcases buildGrid_mem (cfg.ballSize * (5 / 2)) (shapeRadius * (11 / 10)) balls i hi with
      ⟨bi, hbi, hibi⟩
    rcases buildGrid_mem (cfg.ballSize * (5 / 2)) (shapeRadius * (11 / 10)) balls j hj with
      ⟨bj, hbj, hjbj⟩
    have hei := mem_of_gridLookup_eq_some _ _ _ hbi
    have hlook : gridLookup
        ((cellOf (cfg.ballSize * (5 / 2)) (shapeRadius * (11 / 10))
            (balls.getD i default).pos).1 +
          ((cellOf (cfg.ballSize * (5 / 2)) (shapeRadius * (11 / 10))
              (balls.getD j default).pos).1 -
            (cellOf (cfg.ballSize * (5 / 2)) (shapeRadius * (11 / 10))
              (balls.getD i default).pos).1),
          (cellOf (cfg.ballSize * (5 / 2)) (shapeRadius * (11 / 10))
            (balls.getD i default).pos).2 +
          ((cellOf (cfg.ballSize * (5 / 2)) (shapeRadius * (11 / 10))
              (balls.getD j default).pos).2 -
            (cellOf (cfg.ballSize * (5 / 2)) (shapeRadius * (11 / 10))
              (balls.getD i default).pos).2))
        (buildGrid (cfg.ballSize * (5 / 2)) (shapeRadius * (11 / 10)) balls) = some bj := by
      rw [show ((cellOf (cfg.ballSize * (5 / 2)) (shapeRadius * (11 / 10))
            (balls.getD i default).pos).1 +
          ((cellOf (cfg.ballSize * (5 / 2)) (shapeRadius * (11 / 10))
              (balls.getD j default).pos).1 -
            (cellOf (cfg.ballSize * (5 / 2)) (shapeRadius * (11 / 10))
              (balls.getD i default).pos).1),
          (cellOf (cfg.ballSize * (5 / 2)) (shapeRadius * (11 / 10))
            (balls.getD i default).pos).2 +
          ((cellOf (cfg.ballSize * (5 / 2)) (shapeRadius * (11 / 10))
              (balls.getD j default).pos).2 -
            (cellOf (cfg.ballSize * (5 / 2)) (shapeRadius * (11 / 10))
              (balls.getD i default).pos).2)) =
          cellOf (cfg.ballSize * (5 / 2)) (shapeRadius * (11 / 10))
            (balls.getD j default).pos by
        rw [Prod.mk.injEq]
        omega]
      exact hbj
    have hcand := mem_candidates _ _ _ _ i j hei hdmem hlook hibi hjbj
    simp only [pairPhaseState]
    exact foldl_log_covers rt balls _ _ i j hcand
      ⟨rfl, fun k => by simp, List.nodup_nil⟩ hne

/-- Square-root stand-in correct at `3.61`, the squared distance of the
grid fixture pair. -/
def rtGrid : ℚ → ℚ := fun q => if q = 361 / 100 then 19 / 10 else 0

/-- First grid-fixture ball: radius 1 at the origin. -/
def gridBallA : Ball := ⟨"a", ⟨0, 0⟩, ⟨0, 0⟩, 1, "c"⟩

/-- Second grid-fixture ball: radius 1 at distance 1.9, overlapping the
first. -/
def gridBallB : Ball := ⟨"b", ⟨19 / 10, 0⟩, ⟨0, 0⟩, 1, "c"⟩

/-- Witness for C6 at a concrete input: the overlapping fixture pair's
canonical key reaches the narrow-phase log. -/
theorem C6_broad_phase_witness :
    0 < cfgNoForces.ballSize ∧
    magSq (sub ([gridBallA, gridBallB].getD 1 default).pos
        ([gridBallA, gridBallB].getD 0 default).pos) <
      (([gridBallA, gridBallB].getD 0 default).radius +
          ([gridBallA, gridBallB].getD 1 default).radius) *
        (([gridBallA, gridBallB].getD 0 default).radius +
          ([gridBallA, gridBallB].getD 1 default).radius) ∧
    pairKey ([gridBallA, gridBallB].getD 0 default).id
        ([gridBallA, gridBallB].getD 1 default).id ∈
      (pairPhaseState rtGrid cfgNoForces 10 [gridBallA, gridBallB]).log := by
  refine ⟨?_, ?_, ?_⟩
  · norm_num [cfgNoForces]
  · norm_num [magSq, sub, gridBallA, gridBallB]
  · exact (C6_broad_phase_completeness rtGrid cfgNoForces 10 [gridBallA, gridBallB] 0 1
      (by norm_num) (by norm_num) (by decide) (by norm_num [cfgNoForces])
      (by norm_num [gridBallA, cfgNoForces]) (by norm_num [gridBallB, cfgNoForces])
      (by norm_num [magSq, sub, gridBallA, gridBallB])).2.2

end QuantumTheory
